import Mathlib

/-!
Verification development for the DXF plate-part extraction core
(`dxf_plate.py`): geometry ingestion, nesting classification, unit
normalization, metrics and part assembly.

The shapely polygon operations (`area`, `contains`, `equals`,
`exterior.length`, `bounds`, coordinate scaling) are abstracted as a
`GeomOps` structure; `RectOps` instantiates it with axis-aligned
rectangles, on which all of these operations have exact rational values
agreeing with shapely's semantics.  Python's stable `sorted` is modelled
by Mathlib's stable `List.insertionSort`.
-/

namespace DxfPlate

/-- Operations of the shapely geometry library on closed polygons, as used
by `dxf_plate.py`: enclosed area, polygon containment (`o.contains(p)`),
geometric equality (`p.equals(o)`), exterior boundary length,
axis-aligned bounds `(minx, miny, maxx, maxy)`, and coordinate scaling
(`_scale_poly`). -/
structure GeomOps (α : Type) where
  area : α → ℚ
  contains : α → α → Bool
  equals : α → α → Bool
  exterior_length : α → ℚ
  bounds : α → ℚ × ℚ × ℚ × ℚ
  scale : ℚ → α → α

/-- Source constant `DEFAULT_IGNORE_LAYER_SUBSTRINGS`. -/
def DEFAULT_IGNORE_LAYER_SUBSTRINGS : List String :=
  ["ETCH", "SCRIBE", "ENGRAVE", "MARK", "TEXT", "DIM", "CENTER", "CL"]

/-- Source dataclass `DetectedPart`. -/
structure DetectedPart where
  part_name : String
  bbox_w_in : ℚ
  bbox_l_in : ℚ
  cut_perimeter_in : ℚ
  hole_count : ℕ
  hole_circumference_in : ℚ
deriving DecidableEq

/-- Python `str.lower()` (character-wise lowercasing). -/
def py_lower (s : String) : String := String.mk (s.toList.map Char.toLower)

/-- Python `str.upper()` (character-wise uppercasing). -/
def py_upper (s : String) : String := String.mk (s.toList.map Char.toUpper)

/-- Python `str.strip()` (drop whitespace from both ends). -/
def py_strip (s : String) : String :=
  String.mk (((s.toList.dropWhile Char.isWhitespace).reverse.dropWhile
    Char.isWhitespace).reverse)

/-- Source `_scale_factor`: `u = (units or "in").strip().lower()`;
millimeter spellings give `1.0 / 25.4`, everything else gives `1.0`. -/
def scale_factor (units : String) : ℚ :=
  let u := py_lower (py_strip (if units = "" then "in" else units))
  if u = "mm" ∨ u = "millimeter" ∨ u = "millimeters" then 1 / (25.4 : ℚ) else 1

/-- Python substring test `sub in hay` on character lists. -/
def starts_with : List Char → List Char → Bool
  | _, [] => true
  | [], _ :: _ => false
  | h :: hs, c :: cs => h = c && starts_with hs cs

/-- Python substring test `sub in hay` (true when `sub` occurs contiguously
inside `hay`). -/
def contains_sub : List Char → List Char → Bool
  | [], sub => sub.isEmpty
  | h :: t, sub => starts_with (h :: t) sub || contains_sub t sub

/-- Source `_layer_is_ignored`: uppercase the layer name and test whether
any non-empty configured substring (uppercased) occurs in it. -/
def layer_is_ignored (layer_name : String) (ignore_substrings : List String) : Bool :=
  let name := py_upper layer_name
  ignore_substrings.any fun s =>
    !s.isEmpty && contains_sub name.toList (py_upper s).toList

/-- One modelspace drawing entity: its DXF type string, its layer name, and
the outcome of `_polygon_from_entity(entity, flatten_tol)` as a function of
the flattening tolerance (`none` models every conversion failure: open
path, too few vertices, invalid or zero-area polygon, exception). -/
structure Entity (α : Type) where
  dxftype : String
  layer : String
  to_poly : ℚ → Option α

/-- The unconditionally skipped non-geometry DXF types of
`_collect_closed_polygons`. -/
def non_geom_types : List String :=
  ["TEXT", "MTEXT", "DIMENSION", "LEADER", "MLEADER", "HATCH"]

/-- Source `_collect_closed_polygons`: walk the modelspace entities in
order; skip non-geometry types, skip ignored layers, keep the successful
polygon conversions. -/
def collect_closed_polygons (entities : List (Entity α))
    (ignore_substrings : List String) (flatten_tol : ℚ) : List α :=
  match entities with
  | [] => []
  | e :: es =>
    if non_geom_types.contains e.dxftype then
      collect_closed_polygons es ignore_substrings flatten_tol
    else if layer_is_ignored e.layer ignore_substrings then
      collect_closed_polygons es ignore_substrings flatten_tol
    else
      match e.to_poly flatten_tol with
      | some p => p :: collect_closed_polygons es ignore_substrings flatten_tol
      | none => collect_closed_polygons es ignore_substrings flatten_tol

/-- Source `sorted(polys, key=lambda p: p.area, reverse=True)`: Python's
`sorted` is stable, so this is the stable sort by descending area,
modelled with Mathlib's stable `insertionSort`. -/
def sort_by_area_desc (G : GeomOps α) (polys : List α) : List α :=
  polys.insertionSort fun p q => G.area q ≤ G.area p

/-- Outer-profile selection loop of `_assign_outers_and_holes`: a polygon
is appended to the accumulator iff no already accepted outer contains it. -/
def select_outers (G : GeomOps α) (acc : List α) : List α → List α
  | [] => acc
  | p :: ps =>
    if acc.any (fun o => G.contains o p) then select_outers G acc ps
    else select_outers G (acc ++ [p]) ps

/-- The `containing` list of `_assign_outers_and_holes`: pairs
`(index, outer.area)` for each outer (enumerated from `k`) containing `p`. -/
def containing_aux (G : GeomOps α) (p : α) (k : ℕ) : List α → List (ℕ × ℚ)
  | [] => []
  | o :: os =>
    if G.contains o p then (k, G.area o) :: containing_aux G p (k + 1) os
    else containing_aux G p (k + 1) os

/-- Hole-target choice of `_assign_outers_and_holes`: stable-sort the
containing outers by area ascending and take the first index, `none` when
no outer contains `p`. -/
def assign_hole (G : GeomOps α) (outers : List α) (p : α) : Option ℕ :=
  match (containing_aux G p 0 outers).insertionSort (fun a b => a.2 ≤ b.2) with
  | [] => none
  | c :: _ => some c.1

/-- Append `p` to bucket `i` of `holes_by_outer`. -/
def update_bucket (buckets : List (List α)) (i : ℕ) (p : α) : List (List α) :=
  buckets.set i (buckets.getD i [] ++ [p])

/-- Hole-assignment loop of `_assign_outers_and_holes`: polygons equal to
some outer are skipped; every other polygon contained in at least one
outer is appended to the bucket of the smallest containing outer. -/
def assign_holes (G : GeomOps α) (outers : List α) :
    List α → List (List α) → List (List α)
  | [], buckets => buckets
  | p :: ps, buckets =>
    if outers.any (fun o => G.equals p o) then assign_holes G outers ps buckets
    else
      match assign_hole G outers p with
      | none => assign_holes G outers ps buckets
      | some i => assign_holes G outers ps (update_bucket buckets i p)

/-- The outer profiles detected from `polys`. -/
def outer_profiles (G : GeomOps α) (polys : List α) : List α :=
  select_outers G [] (sort_by_area_desc G polys)

/-- The per-outer hole buckets (`holes_by_outer`) computed from `polys`. -/
def hole_buckets (G : GeomOps α) (polys : List α) : List (List α) :=
  assign_holes G (outer_profiles G polys) (sort_by_area_desc G polys)
    (List.replicate (outer_profiles G polys).length [])

/-- Source `_assign_outers_and_holes`: empty input returns `[]`; otherwise
pair each outer with its hole bucket, in outer order. -/
def assign_outers_and_holes (G : GeomOps α) (polys : List α) : List (α × List α) :=
  if polys.isEmpty then []
  else (outer_profiles G polys).zip (hole_buckets G polys)

/-- Python `round` half-to-even on an exact rational. -/
def round_half_even (x : ℚ) : ℤ :=
  let f := ⌊x⌋
  let r := x - (f : ℚ)
  if r < 1 / 2 then f
  else if 1 / 2 < r then f + 1
  else if f % 2 = 0 then f else f + 1

/-- Python `round(x, 3)` on an exact rational. -/
def round3 (x : ℚ) : ℚ := (round_half_even (x * 1000) : ℚ) / 1000

/-- Source `filename.rsplit(".", 1)[0]`: everything before the last dot,
or the whole string when there is no dot. -/
def rsplit_base (s : String) : String :=
  let cs := s.toList
  match cs.reverse.findIdx? (fun c => c = '.') with
  | none => s
  | some i => String.mk (cs.take (cs.length - 1 - i))

/-- Loop body of `parse_dxf_plate_parts` for one classified group: scale
when the factor is not 1, take bounds and perimeters of the scaled
geometry, round each length to 3 decimals, and name the part. -/
def mk_detected_part (G : GeomOps α) (base : String) (n_groups idx : ℕ)
    (outer : α) (holes : List α) (sf : ℚ) : DetectedPart :=
  let outer_s := if sf ≠ 1 then G.scale sf outer else outer
  let holes_s := if sf ≠ 1 then holes.map (G.scale sf) else holes
  let b := G.bounds outer_s
  let bbox_w := b.2.2.1 - b.1
  let bbox_l := b.2.2.2 - b.2.1
  let outer_perim := G.exterior_length outer_s
  let hole_circ := (holes_s.map G.exterior_length).sum
  let cut_perim := outer_perim + hole_circ
  let part_name := if n_groups > 1 then base ++ " - Part " ++ toString idx else base
  { part_name := part_name
    bbox_w_in := round3 bbox_w
    bbox_l_in := round3 bbox_l
    cut_perimeter_in := round3 cut_perim
    hole_count := holes_s.length
    hole_circumference_in := round3 hole_circ }

/-- The `for idx, (outer, holes) in enumerate(groups, start=1)` loop of
`parse_dxf_plate_parts`, with `n_groups = len(groups)` fixed. -/
def assemble_parts (G : GeomOps α) (sf : ℚ) (base : String) (n_groups : ℕ) :
    ℕ → List (α × List α) → List DetectedPart
  | _, [] => []
  | idx, (outer, holes) :: rest =>
    mk_detected_part G base n_groups idx outer holes sf ::
      assemble_parts G sf base n_groups (idx + 1) rest

/-- Source `ignore = ignore_layer_substrings or list(DEFAULT_IGNORE_LAYER_SUBSTRINGS)`:
Python `or` replaces both `None` and the empty list with the default. -/
def resolve_ignore (ignore_layer_substrings : Option (List String)) : List String :=
  match ignore_layer_substrings with
  | none => DEFAULT_IGNORE_LAYER_SUBSTRINGS
  | some [] => DEFAULT_IGNORE_LAYER_SUBSTRINGS
  | some l => l

/-- The fatal whole-document failure of the drawing reader. -/
structure MalformedDocument where
  msg : String
deriving DecidableEq

/-- Source `parse_dxf_plate_parts`.  Modelled from the spec: the
`ezdxf.readfile` + `doc.modelspace()` step (an external library call) is
the `read_doc` parameter, which either fails with `MalformedDocument`
(structural corruption, fatal, no partial output) or yields the list of
modelspace entities.  Everything after reading is translated from the
source. -/
def parse_dxf_plate_parts (G : GeomOps α)
    (read_doc : List ℕ → Except MalformedDocument (List (Entity α)))
    (file_bytes : List ℕ) (filename : String) (units : String)
    (ignore_layer_substrings : Option (List String)) (flatten_tol : ℚ) :
    Except MalformedDocument (List DetectedPart) :=
  let ignore := resolve_ignore ignore_layer_substrings
  let sf := scale_factor units
  match read_doc file_bytes with
  | Except.error e => Except.error e
  | Except.ok entities =>
    let polys := collect_closed_polygons entities ignore flatten_tol
    let groups := assign_outers_and_holes G polys
    Except.ok (assemble_parts G sf (rsplit_base filename) groups.length 1 groups)

/-- One row produced by `parts_to_rows`. -/
structure PartRow where
  name_cell : String
  width_in : ℚ
  length_in : ℚ
  cut_perimeter_in : ℚ
  hole_count : ℕ
  hole_circumference_in : ℚ
deriving DecidableEq

/-- Source `parts_to_rows`: copy every field of every part verbatim into a
row; no arithmetic, no rounding. -/
def parts_to_rows (parts : List DetectedPart) : List PartRow :=
  parts.map fun p =>
    { name_cell := p.part_name
      width_in := p.bbox_w_in
      length_in := p.bbox_l_in
      cut_perimeter_in := p.cut_perimeter_in
      hole_count := p.hole_count
      hole_circumference_in := p.hole_circumference_in }

/-- An axis-aligned rectangle ring `[x0, x1] × [y0, y1]` (valid when
`x0 < x1` and `y0 < y1`), used as a concrete polygon type. -/
structure Rect where
  x0 : ℚ
  y0 : ℚ
  x1 : ℚ
  y1 : ℚ
deriving DecidableEq

/-- The shapely operations restricted to valid axis-aligned rectangles,
where they all have exact rational values: containment is the coordinate
inclusion test, geometric equality is coordinate equality, the exterior
length is the rectangle perimeter. -/
def RectOps : GeomOps Rect where
  area r := (r.x1 - r.x0) * (r.y1 - r.y0)
  contains o p := decide (o.x0 ≤ p.x0 ∧ p.x1 ≤ o.x1 ∧ o.y0 ≤ p.y0 ∧ p.y1 ≤ o.y1)
  equals p q := decide (p = q)
  exterior_length r := 2 * ((r.x1 - r.x0) + (r.y1 - r.y0))
  bounds r := (r.x0, r.y0, r.x1, r.y1)
  scale f r := ⟨f * r.x0, f * r.y0, f * r.x1, f * r.y1⟩

/-- Strict geometric nesting of rectangles: `p` lies in the open interior
of `o`. -/
def Rect.properly_inside (p o : Rect) : Prop :=
  o.x0 < p.x0 ∧ p.x1 < o.x1 ∧ o.y0 < p.y0 ∧ p.y1 < o.y1

/-! ### Helper lemmas about the classifier -/

theorem mem_containing_aux (G : GeomOps α) (p : α) (os : List α) :
    ∀ (k i : ℕ) (a : ℚ),
      (i, a) ∈ containing_aux G p k os ↔
        ∃ j, ∃ hj : j < os.length,
          i = k + j ∧ G.contains os[j] p = true ∧ a = G.area os[j] := by
  induction os with
  | nil => intro k i a; simp [containing_aux]
  | cons o os ih =>
    intro k i a
    by_cases hc : G.contains o p = true
    · simp only [containing_aux, if_pos hc, List.mem_cons]
      constructor
      · intro hm
        rcases hm with he | hm
        · obtain ⟨h1, h2⟩ := Prod.mk.injEq .. ▸ he
          exact ⟨0, by simp, by omega, by simpa using hc ▸ rfl, by simpa using h2⟩
        · obtain ⟨j, hj, hik, hcj, ha⟩ := (ih (k + 1) i a).mp hm
          exact ⟨j + 1, by simpa using hj, by omega, by simpa using hcj, by simpa using ha⟩
      · rintro ⟨j, hj, hik, hcj, ha⟩
        cases j with
        | zero =>
          left
          simp only [List.getElem_cons_zero] at hcj ha
          simp [Prod.ext_iff, hik, ha]
        | succ j =>
          right
          refine (ih (k + 1) i a).mpr ⟨j, by simpa using hj, by omega, ?_, ?_⟩
          · simpa using hcj
          · simpa using ha
    · simp only [containing_aux, if_neg hc]
      rw [ih]
      constructor
      · rintro ⟨j, hj, hik, hcj, ha⟩
        exact ⟨j + 1, by simpa using hj, by omega, by simpa using hcj, by simpa using ha⟩
      · rintro ⟨j, hj, hik, hcj, ha⟩
        cases j with
        | zero =>
          simp only [List.getElem_cons_zero] at hcj
          exact absurd hcj hc
        | succ j =>
          exact ⟨j, by simpa using hj, by omega, by simpa using hcj, by simpa using ha⟩

theorem assign_hole_some (G : GeomOps α) (outers : List α) (p : α) (i : ℕ)
    (h : assign_hole G outers p = some i) :
    ∃ hi : i < outers.length, G.contains outers[i] p = true ∧
      ∀ j, (hj : j < outers.length) → G.contains outers[j] p = true →
        G.area outers[i] ≤ G.area outers[j] := by
  haveI : IsTotal (ℕ × ℚ) (fun a b => a.2 ≤ b.2) := ⟨fun a b => le_total a.2 b.2⟩
  haveI : IsTrans (ℕ × ℚ) (fun a b => a.2 ≤ b.2) := ⟨fun _ _ _ h1 h2 => le_trans h1 h2⟩
  unfold assign_hole at h
  cases hSe : (containing_aux G p 0 outers).insertionSort (fun a b => a.2 ≤ b.2) with
  | nil => rw [hSe] at h; cases h
  | cons c rest =>
    rw [hSe] at h
    simp only [Option.some.injEq] at h
    have hcL : c ∈ containing_aux G p 0 outers := by
      have : c ∈ (containing_aux G p 0 outers).insertionSort (fun a b => a.2 ≤ b.2) := by
        rw [hSe]; exact List.mem_cons_self c rest
      exact (List.mem_insertionSort _).mp this
    obtain ⟨j, hj, hij, hcont, ha⟩ :=
      (mem_containing_aux G p outers 0 c.1 c.2).mp (by simpa using hcL)
    have heq : i = j := by omega
    subst heq
    refine ⟨hj, hcont, ?_⟩
    intro j2 hj2 hc2
    have hmemL : (j2, G.area outers[j2]) ∈ containing_aux G p 0 outers :=
      (mem_containing_aux G p outers 0 j2 (G.area outers[j2])).mpr
        ⟨j2, hj2, by omega, hc2, rfl⟩
    have hmemS : (j2, G.area outers[j2]) ∈
        (containing_aux G p 0 outers).insertionSort (fun a b => a.2 ≤ b.2) :=
      (List.mem_insertionSort _).mpr hmemL
    have hsort := List.sorted_insertionSort (fun a b : ℕ × ℚ => a.2 ≤ b.2)
      (containing_aux G p 0 outers)
    rw [hSe] at hmemS hsort
    rw [← ha]
    rcases List.mem_cons.mp hmemS with he | hr
    · have : c.2 = G.area outers[j2] := by
        have h2 := congrArg Prod.snd he; simpa using h2.symm
      rw [this]
    · exact (List.sorted_cons.mp hsort).1 _ hr

theorem assign_hole_none (G : GeomOps α) (outers : List α) (p : α)
    (h : assign_hole G outers p = none) :
    ∀ j, (hj : j < outers.length) → G.contains outers[j] p = false := by
  intro j hj
  cases hcv : G.contains outers[j] p with
  | false => rfl
  | true =>
    exfalso
    have hmemL : (j, G.area outers[j]) ∈ containing_aux G p 0 outers :=
      (mem_containing_aux G p outers 0 j (G.area outers[j])).mpr
        ⟨j, hj, by omega, hcv, rfl⟩
    unfold assign_hole at h
    cases hSe : (containing_aux G p 0 outers).insertionSort (fun a b => a.2 ≤ b.2) with
    | nil =>
      have hperm := List.perm_insertionSort (fun a b : ℕ × ℚ => a.2 ≤ b.2)
        (containing_aux G p 0 outers)
      rw [hSe] at hperm
      rw [hperm.symm.eq_nil] at hmemL
      exact absurd hmemL (List.not_mem_nil _)
    | cons c rest => rw [hSe] at h; cases h

theorem update_bucket_length (buckets : List (List α)) (i : ℕ) (p : α) :
    (update_bucket buckets i p).length = buckets.length := by
  simp [update_bucket]

theorem update_bucket_getD : ∀ (buckets : List (List α)) (i j : ℕ) (p : α),
    (update_bucket buckets i p).getD j [] =
      if j = i ∧ i < buckets.length then buckets.getD j [] ++ [p]
      else buckets.getD j []
  | [], i, j, p => by simp [update_bucket]
  | b :: bs, 0, 0, p => by simp [update_bucket]
  | b :: bs, 0, j + 1, p => by simp [update_bucket]
  | b :: bs, i + 1, 0, p => by simp [update_bucket]
  | b :: bs, i + 1, j + 1, p => by
    have ih := update_bucket_getD bs i j p
    simp only [update_bucket, List.getD_cons_succ, List.set_cons_succ,
      List.length_cons] at ih ⊢
    rw [ih]
    by_cases hji : j = i
    · subst hji
      by_cases hlen : j < bs.length
      · rw [if_pos ⟨rfl, hlen⟩, if_pos ⟨rfl, by omega⟩]
      · rw [if_neg (by omega), if_neg (by omega)]
    · rw [if_neg (by omega), if_neg (by omega)]

theorem assign_holes_length (G : GeomOps α) (outers : List α) :
    ∀ (ps : List α) (buckets : List (List α)),
      (assign_holes G outers ps buckets).length = buckets.length := by
  intro ps
  induction ps with
  | nil => intro buckets; simp [assign_holes]
  | cons p ps ih =>
    intro buckets
    simp only [assign_holes]
    by_cases hskip : outers.any (fun o => G.equals p o) = true
    · rw [if_pos hskip, ih]
    · rw [if_neg hskip]
      cases hah : assign_hole G outers p with
      | none => rw [ih]
      | some j => rw [ih, update_bucket_length]

theorem assign_holes_mono (G : GeomOps α) (outers : List α) :
    ∀ (ps : List α) (buckets : List (List α)) (i : ℕ) (h : α),
      h ∈ buckets.getD i [] → h ∈ (assign_holes G outers ps buckets).getD i [] := by
  intro ps
  induction ps with
  | nil => intro buckets i h hm; simpa [assign_holes] using hm
  | cons p ps ih =>
    intro buckets i h hm
    simp only [assign_holes]
    by_cases hskip : outers.any (fun o => G.equals p o) = true
    · rw [if_pos hskip]; exact ih _ _ _ hm
    · rw [if_neg hskip]
      cases hah : assign_hole G outers p with
      | none => exact ih _ _ _ hm
      | some j =>
        apply ih
        rw [update_bucket_getD]
        by_cases hc : i = j ∧ j < buckets.length
        · rw [if_pos hc]; exact List.mem_append_left _ hm
        · rw [if_neg hc]; exact hm

theorem mem_assign_holes (G : GeomOps α) (outers : List α) :
    ∀ (ps : List α) (buckets : List (List α)) (i : ℕ) (h : α),
      h ∈ (assign_holes G outers ps buckets).getD i [] →
      h ∈ buckets.getD i [] ∨
        (h ∈ ps ∧ outers.any (fun o => G.equals h o) = false ∧
          assign_hole G outers h = some i) := by
  intro ps
  induction ps with
  | nil => intro buckets i h hm; left; simpa [assign_holes] using hm
  | cons p ps ih =>
    intro buckets i h hm
    simp only [assign_holes] at hm
    by_cases hskip : outers.any (fun o => G.equals p o) = true
    · rw [if_pos hskip] at hm
      rcases ih _ _ _ hm with hl | ⟨h1, h2, h3⟩
      · exact Or.inl hl
      · exact Or.inr ⟨List.mem_cons_of_mem p h1, h2, h3⟩
    · rw [if_neg hskip] at hm
      cases hah : assign_hole G outers p with
      | none =>
        rw [hah] at hm
        rcases ih _ _ _ hm with hl | ⟨h1, h2, h3⟩
        · exact Or.inl hl
        · exact Or.inr ⟨List.mem_cons_of_mem p h1, h2, h3⟩
      | some j =>
        rw [hah] at hm
        rcases ih _ _ _ hm with hl | ⟨h1, h2, h3⟩
        · rw [update_bucket_getD] at hl
          by_cases hc : i = j ∧ j < buckets.length
          · rw [if_pos hc] at hl
            rcases List.mem_append.mp hl with hold | hnew
            · exact Or.inl hold
            · have hp : h = p := by simpa using hnew
              subst hp
              refine Or.inr ⟨List.mem_cons_self h ps, ?_, ?_⟩
              · simpa using hskip
              · rw [hah, hc.1]
          · rw [if_neg hc] at hl; exact Or.inl hl
        · exact Or.inr ⟨List.mem_cons_of_mem p h1, h2, h3⟩

theorem assign_holes_mem_of (G : GeomOps α) (outers : List α) :
    ∀ (ps : List α) (buckets : List (List α)) (p : α) (i : ℕ),
      p ∈ ps → outers.any (fun o => G.equals p o) = false →
      assign_hole G outers p = some i → i < buckets.length →
      p ∈ (assign_holes G outers ps buckets).getD i [] := by
  intro ps
  induction ps with
  | nil => intro buckets p i hp; cases hp
  | cons q ps ih =>
    intro buckets p i hp hne hah hlen
    simp only [assign_holes]
    rcases List.mem_cons.mp hp with rfl | hp2
    · rw [if_neg (by rw [hne]; exact Bool.false_ne_true), hah]
      apply assign_holes_mono
      rw [update_bucket_getD, if_pos ⟨rfl, hlen⟩]
      exact List.mem_append_right _ (List.mem_singleton.mpr rfl)
    · by_cases hskip : outers.any (fun o => G.equals q o) = true
      · rw [if_pos hskip]; exact ih _ _ _ hp2 hne hah hlen
      · rw [if_neg hskip]
        cases haq : assign_hole G outers q with
        | none => exact ih _ _ _ hp2 hne hah hlen
        | some j =>
          exact ih _ _ _ hp2 hne hah (by rw [update_bucket_length]; exact hlen)

theorem replicate_getD_nil (n i : ℕ) :
    (List.replicate n ([] : List α)).getD i [] = [] := by
  induction n generalizing i with
  | zero => simp
  | succ n ih =>
    cases i with
    | zero => simp [List.replicate]
    | succ i => rw [List.replicate, List.getD_cons_succ]; exact ih i

theorem select_outers_eq_append (G : GeomOps α) :
    ∀ (ps acc : List α), ∃ l, select_outers G acc ps = acc ++ l ∧ l.Sublist ps := by
  intro ps
  induction ps with
  | nil => intro acc; exact ⟨[], by simp [select_outers], List.nil_sublist _⟩
  | cons p ps ih =>
    intro acc
    by_cases hc : acc.any (fun o => G.contains o p) = true
    · obtain ⟨l, he, hs⟩ := ih acc
      exact ⟨l, by rw [select_outers, if_pos hc]; exact he, hs.cons p⟩
    · obtain ⟨l, he, hs⟩ := ih (acc ++ [p])
      refine ⟨p :: l, ?_, hs.cons₂ p⟩
      rw [select_outers, if_neg hc, he, List.append_assoc]
      rfl

theorem outer_profiles_sublist (G : GeomOps α) (polys : List α) :
    (outer_profiles G polys).Sublist (sort_by_area_desc G polys) := by
  obtain ⟨l, he, hs⟩ := select_outers_eq_append G (sort_by_area_desc G polys) []
  rw [outer_profiles, he]
  simpa using hs

theorem hole_buckets_length (G : GeomOps α) (polys : List α) :
    (hole_buckets G polys).length = (outer_profiles G polys).length := by
  rw [hole_buckets, assign_holes_length, List.length_replicate]

theorem assign_map_fst (G : GeomOps α) (polys : List α) :
    (assign_outers_and_holes G polys).map Prod.fst = outer_profiles G polys := by
  rw [assign_outers_and_holes]
  by_cases hp : polys.isEmpty = true
  · rw [if_pos hp]
    rw [List.isEmpty_iff.mp hp]
    simp [outer_profiles, sort_by_area_desc, List.insertionSort, select_outers]
  · rw [if_neg hp]
    exact List.map_fst_zip _ _ (le_of_eq (hole_buckets_length G polys).symm)

theorem assign_map_snd (G : GeomOps α) (polys : List α) :
    (assign_outers_and_holes G polys).map Prod.snd = hole_buckets G polys := by
  rw [assign_outers_and_holes]
  by_cases hp : polys.isEmpty = true
  · rw [if_pos hp]
    rw [List.isEmpty_iff.mp hp]
    simp [hole_buckets, outer_profiles, sort_by_area_desc, List.insertionSort,
      select_outers, assign_holes]
  · rw [if_neg hp]
    exact List.map_snd_zip _ _ (le_of_eq (hole_buckets_length G polys))

theorem mem_assign_groups (G : GeomOps α) (polys : List α) (g : α × List α)
    (hg : g ∈ assign_outers_and_holes G polys) :
    ∃ i, ∃ hi : i < (outer_profiles G polys).length,
      g.1 = (outer_profiles G polys)[i] ∧
      g.2 = (hole_buckets G polys).getD i [] := by
  rw [assign_outers_and_holes] at hg
  by_cases hp : polys.isEmpty = true
  · rw [if_pos hp] at hg; cases hg
  · rw [if_neg hp] at hg
    obtain ⟨i, hi, he⟩ := List.mem_iff_getElem.mp hg
    have hlen : ((outer_profiles G polys).zip (hole_buckets G polys)).length
        = min (outer_profiles G polys).length (hole_buckets G polys).length := by
      simp [List.length_zip]
    have hio : i < (outer_profiles G polys).length := by
      rw [hlen] at hi; omega
    have hib : i < (hole_buckets G polys).length := by
      rw [hlen] at hi; omega
    rw [List.getElem_zip] at he
    refine ⟨i, hio, ?_, ?_⟩
    · rw [← he]
    · rw [← he]
      exact (List.getD_eq_getElem _ _ hib).symm

/-! ### Claim theorems -/

/-- Claim C5: the classifier visits rings in descending order of enclosed
area (the visited list is a permutation of the input sorted by descending
area), a ring is accepted as an outer profile iff it is not contained in
any ring already accepted as an outer profile, the returned groups are
ordered by descending outer-profile area, and the sort is stable: any two
rings in input order whose areas are weakly decreasing keep their relative
order. -/
theorem claim_c5_classification_order (G : GeomOps α) (polys : List α) :
    List.Sorted (fun p q => G.area q ≤ G.area p) (sort_by_area_desc G polys)
    ∧ (sort_by_area_desc G polys).Perm polys
    ∧ (∀ acc p ps, select_outers G acc (p :: ps) =
        if acc.any (fun o => G.contains o p) then select_outers G acc ps
        else select_outers G (acc ++ [p]) ps)
    ∧ List.Sorted (fun p q => G.area q ≤ G.area p)
        ((assign_outers_and_holes G polys).map Prod.fst)
    ∧ (∀ p q, G.area q ≤ G.area p → [p, q].Sublist polys →
        [p, q].Sublist (sort_by_area_desc G polys)) := by
  haveI : IsTotal α (fun p q => G.area q ≤ G.area p) := ⟨fun _ _ => le_total _ _⟩
  haveI : IsTrans α (fun p q => G.area q ≤ G.area p) :=
    ⟨fun _ _ _ h1 h2 => le_trans h2 h1⟩
  refine ⟨List.sorted_insertionSort _ _, List.perm_insertionSort _ _,
    fun acc p ps => rfl, ?_, ?_⟩
  · rw [assign_map_fst]
    exact List.Pairwise.sublist (outer_profiles_sublist G polys)
      (List.sorted_insertionSort _ _)
  · intro p q hpq hsub
    exact List.sublist_insertionSort (List.pairwise_pair.mpr hpq) hsub

/-- Claim C5 witness: for two equal-area rectangles the stable sort keeps
the input order. -/
theorem claim_c5_witness :
    [(⟨0, 0, 2, 2⟩ : Rect), ⟨5, 5, 7, 7⟩].Sublist
      (sort_by_area_desc RectOps [⟨0, 0, 2, 2⟩, ⟨5, 5, 7, 7⟩]) :=
  (claim_c5_classification_order RectOps [⟨0, 0, 2, 2⟩, ⟨5, 5, 7, 7⟩]).2.2.2.2
    _ _ (by norm_num [RectOps]) (List.Sublist.refl _)

/-- Claim C2 (amended): every hole of a classified group is properly
contained in the group's outer ring — the outer contains it and it is not
geometrically equal to any outer; holes are only ever tested against
outers, so the claim's further assertion that no hole of a group is
contained in another hole of the same group does not hold (see the
counterexample). -/
theorem claim_c2_amended_holes_in_outer (G : GeomOps α) (polys : List α) :
    ∀ g ∈ assign_outers_and_holes G polys, ∀ h ∈ g.2,
      G.contains g.1 h = true ∧ G.equals h g.1 = false := by
  intro g hg h hh
  obtain ⟨i, hi, hfst, hsnd⟩ := mem_assign_groups G polys g hg
  rw [hsnd, hole_buckets] at hh
  rcases mem_assign_holes G _ _ _ _ _ hh with hinit | ⟨_, hne, hah⟩
  · rw [replicate_getD_nil] at hinit
    exact absurd hinit (List.not_mem_nil h)
  · obtain ⟨hi2, hcont, _⟩ := assign_hole_some G _ _ _ hah
    refine ⟨by rw [hfst]; exact hcont, ?_⟩
    rw [hfst]
    cases hv : G.equals h ((outer_profiles G polys)[i]) with
    | false => rfl
    | true =>
      exact absurd hv (by simpa using
        List.any_eq_false.mp hne _ (List.getElem_mem hi))

/-- Claim C2 counterexample: with three strictly nested rectangles the
single detected group has two holes, and the inner hole is contained in
the outer hole of the same group, contradicting the claim that no hole of
a group is contained in another hole of the same group. -/
theorem claim_c2_counterexample :
    assign_outers_and_holes RectOps
        [⟨0, 0, 20, 20⟩, ⟨3, 3, 15, 15⟩, ⟨5, 5, 12, 12⟩]
      = [(⟨0, 0, 20, 20⟩, [⟨3, 3, 15, 15⟩, ⟨5, 5, 12, 12⟩])]
    ∧ RectOps.contains ⟨3, 3, 15, 15⟩ ⟨5, 5, 12, 12⟩ = true := by
  constructor
  · norm_num [assign_outers_and_holes, outer_profiles, hole_buckets,
      sort_by_area_desc, List.insertionSort, List.orderedInsert, select_outers,
      containing_aux, assign_hole, update_bucket, assign_holes, RectOps]
  · norm_num [RectOps]

/-- Claim C2 witness: the amended statement applied to a rectangle with one
hole. -/
theorem claim_c2_witness :
    RectOps.contains (⟨0, 0, 8, 8⟩ : Rect) ⟨2, 2, 6, 6⟩ = true
    ∧ RectOps.equals (⟨2, 2, 6, 6⟩ : Rect) ⟨0, 0, 8, 8⟩ = false :=
  claim_c2_amended_holes_in_outer RectOps [⟨0, 0, 8, 8⟩, ⟨2, 2, 6, 6⟩]
    (⟨0, 0, 8, 8⟩, [⟨2, 2, 6, 6⟩])
    (by
      rw [show assign_outers_and_holes RectOps [⟨0, 0, 8, 8⟩, ⟨2, 2, 6, 6⟩]
          = [((⟨0, 0, 8, 8⟩ : Rect), [(⟨2, 2, 6, 6⟩ : Rect)])] from by
        norm_num [assign_outers_and_holes, outer_profiles, hole_buckets,
          sort_by_area_desc, List.insertionSort, List.orderedInsert,
          select_outers, containing_aux, assign_hole, update_bucket,
          assign_holes, RectOps]]
      exact List.mem_singleton.mpr rfl)
    ⟨2, 2, 6, 6⟩ (List.mem_singleton.mpr rfl)

/-- Claim C10: a ring geometrically equal to an accepted outer profile is
never placed in any group's hole list: every hole of every group is
geometrically unequal to every group's outer ring, so duplicated outer
loops never count as holes. -/
theorem claim_c10_no_outer_as_hole (G : GeomOps α) (polys : List α) :
    ∀ g ∈ assign_outers_and_holes G polys, ∀ h ∈ g.2,
      ∀ g2 ∈ assign_outers_and_holes G polys, G.equals h g2.1 = false := by
  intro g hg h hh g2 hg2
  obtain ⟨i, hi, hfst, hsnd⟩ := mem_assign_groups G polys g hg
  rw [hsnd, hole_buckets] at hh
  rcases mem_assign_holes G _ _ _ _ _ hh with hinit | ⟨_, hne, _⟩
  · rw [replicate_getD_nil] at hinit
    exact absurd hinit (List.not_mem_nil h)
  · obtain ⟨i2, hi2, hfst2, _⟩ := mem_assign_groups G polys g2 hg2
    rw [hfst2]
    cases hv : G.equals h ((outer_profiles G polys)[i2]) with
    | false => rfl
    | true =>
      exact absurd hv (by simpa using
        List.any_eq_false.mp hne _ (List.getElem_mem hi2))

/-- Claim C10 witness: with a duplicated outer loop and one hole, the hole
is not geometrically equal to the outer. -/
theorem claim_c10_witness :
    RectOps.equals (⟨3, 3, 4, 4⟩ : Rect) ⟨0, 0, 9, 9⟩ = false :=
  claim_c10_no_outer_as_hole RectOps [⟨0, 0, 9, 9⟩, ⟨0, 0, 9, 9⟩, ⟨3, 3, 4, 4⟩]
    (⟨0, 0, 9, 9⟩, [⟨3, 3, 4, 4⟩])
    (by
      rw [show assign_outers_and_holes RectOps
            [⟨0, 0, 9, 9⟩, ⟨0, 0, 9, 9⟩, ⟨3, 3, 4, 4⟩]
          = [((⟨0, 0, 9, 9⟩ : Rect), [(⟨3, 3, 4, 4⟩ : Rect)])] from by
        norm_num [assign_outers_and_holes, outer_profiles, hole_buckets,
          sort_by_area_desc, List.insertionSort, List.orderedInsert,
          select_outers, containing_aux, assign_hole, update_bucket,
          assign_holes, RectOps]]
      exact List.mem_singleton.mpr rfl)
    ⟨3, 3, 4, 4⟩ (List.mem_singleton.mpr rfl)
    (⟨0, 0, 9, 9⟩, [⟨3, 3, 4, 4⟩])
    (by
      rw [show assign_outers_and_holes RectOps
            [⟨0, 0, 9, 9⟩, ⟨0, 0, 9, 9⟩, ⟨3, 3, 4, 4⟩]
          = [((⟨0, 0, 9, 9⟩ : Rect), [(⟨3, 3, 4, 4⟩ : Rect)])] from by
        norm_num [assign_outers_and_holes, outer_profiles, hole_buckets,
          sort_by_area_desc, List.insertionSort, List.orderedInsert,
          select_outers, containing_aux, assign_hole, update_bucket,
          assign_holes, RectOps]]
      exact List.mem_singleton.mpr rfl)

/-- Claim C4: a ring of the input that is not geometrically equal to any
outer profile is handled as follows: if no outer profile contains it, it
is silently dropped — it appears in no group's hole list and the
classifier still returns its group list normally; if at least one outer
profile contains it, it is placed in exactly one hole bucket, belonging to
an outer profile that contains it and has minimal area among all
containing outer profiles.  The groups' hole lists are exactly the
buckets, in order. -/
theorem claim_c4_hole_assignment (G : GeomOps α) (polys : List α) (p : α)
    (hp : p ∈ polys)
    (hne : (outer_profiles G polys).any (fun o => G.equals p o) = false) :
    ((∀ j, (hj : j < (outer_profiles G polys).length) →
        G.contains (outer_profiles G polys)[j] p = false) →
      ∀ g ∈ assign_outers_and_holes G polys, p ∉ g.2)
    ∧ ((∃ j, ∃ hj : j < (outer_profiles G polys).length,
          G.contains (outer_profiles G polys)[j] p = true) →
        ∃ i, ∃ hi : i < (outer_profiles G polys).length,
          G.contains (outer_profiles G polys)[i] p = true
          ∧ (∀ j, (hj : j < (outer_profiles G polys).length) →
              G.contains (outer_profiles G polys)[j] p = true →
              G.area (outer_profiles G polys)[i]
                ≤ G.area (outer_profiles G polys)[j])
          ∧ p ∈ (hole_buckets G polys).getD i []
          ∧ (∀ j, p ∈ (hole_buckets G polys).getD j [] → j = i))
    ∧ (assign_outers_and_holes G polys).map Prod.snd = hole_buckets G polys := by
  have hps : p ∈ sort_by_area_desc G polys := by
    rw [sort_by_area_desc]
    exact (List.mem_insertionSort _).mpr hp
  refine ⟨?_, ?_, assign_map_snd G polys⟩
  · intro hno g hg hpg
    obtain ⟨i, hi, hfst, hsnd⟩ := mem_assign_groups G polys g hg
    rw [hsnd, hole_buckets] at hpg
    rcases mem_assign_holes G _ _ _ _ _ hpg with hinit | ⟨_, _, hah⟩
    · rw [replicate_getD_nil] at hinit
      exact absurd hinit (List.not_mem_nil p)
    · obtain ⟨hi2, hcont, _⟩ := assign_hole_some G _ _ _ hah
      rw [hno _ hi2] at hcont
      cases hcont
  · rintro ⟨j, hj, hcj⟩
    cases hah : assign_hole G (outer_profiles G polys) p with
    | none =>
      rw [assign_hole_none G _ _ hah j hj] at hcj
      cases hcj
    | some i =>
      obtain ⟨hi, hcont, hmin⟩ := assign_hole_some G _ _ _ hah
      refine ⟨i, hi, hcont, hmin, ?_, ?_⟩
      · rw [hole_buckets]
        exact assign_holes_mem_of G _ _ _ _ _ hps hne hah
          (by rw [List.length_replicate]; exact hi)
      · intro j2 hj2
        rw [hole_buckets] at hj2
        rcases mem_assign_holes G _ _ _ _ _ hj2 with hinit | ⟨_, _, hah2⟩
        · rw [replicate_getD_nil] at hinit
          exact absurd hinit (List.not_mem_nil p)
        · exact (Option.some.inj (hah.symm.trans hah2)).symm

/-- Claim C4 witness: the bucket/group correspondence of the claim,
applied to a plate with one hole. -/
theorem claim_c4_witness :
    (assign_outers_and_holes RectOps [⟨0, 0, 7, 7⟩, ⟨1, 1, 3, 3⟩]).map Prod.snd
      = hole_buckets RectOps [⟨0, 0, 7, 7⟩, ⟨1, 1, 3, 3⟩] :=
  (claim_c4_hole_assignment RectOps [⟨0, 0, 7, 7⟩, ⟨1, 1, 3, 3⟩] ⟨1, 1, 3, 3⟩
    (by norm_num)
    (by norm_num [outer_profiles, sort_by_area_desc, List.insertionSort,
      List.orderedInsert, select_outers, RectOps])).2.2

theorem contains_of_properly_inside {p o : Rect} (h : p.properly_inside o) :
    RectOps.contains o p = true := by
  obtain ⟨h1, h2, h3, h4⟩ := h
  simp only [RectOps, decide_eq_true_eq]
  exact ⟨le_of_lt h1, le_of_lt h2, le_of_lt h3, le_of_lt h4⟩

theorem properly_inside_trans {a b c : Rect} (h1 : a.properly_inside b)
    (h2 : b.properly_inside c) : a.properly_inside c := by
  obtain ⟨p1, p2, p3, p4⟩ := h1
  obtain ⟨q1, q2, q3, q4⟩ := h2
  exact ⟨lt_trans q1 p1, lt_trans p2 q2, lt_trans q3 p3, lt_trans p4 q4⟩

theorem equals_false_of_properly_inside {p o : Rect} (h : p.properly_inside o) :
    RectOps.equals p o = false := by
  obtain ⟨h1, _, _, _⟩ := h
  simp only [RectOps, decide_eq_false_iff_not]
  intro he
  rw [he] at h1
  exact lt_irrefl _ h1

theorem rect_equals_self (r : Rect) : RectOps.equals r r = true := by
  simp [RectOps]

/-- Claim C1 (amended): for an input whose rings sort (by descending area)
to three strictly nested rectangles, the classifier produces a single
group: the outermost rectangle is the only outer profile, and both the
middle and the innermost rectangle are its holes — in particular the
innermost rectangle IS assigned as a second hole of the outermost, because
the middle rectangle is not an outer profile and holes are only assigned
to outer profiles. -/
theorem claim_c1_amended (r1 r2 r3 : Rect) (polys : List Rect)
    (h21 : r2.properly_inside r1) (h32 : r3.properly_inside r2)
    (hs : sort_by_area_desc RectOps polys = [r1, r2, r3]) :
    assign_outers_and_holes RectOps polys = [(r1, [r2, r3])] := by
  have h31 := properly_inside_trans h32 h21
  have c12 := contains_of_properly_inside h21
  have c13 := contains_of_properly_inside h31
  have e21 := equals_false_of_properly_inside h21
  have e31 := equals_false_of_properly_inside h31
  have hne : polys.isEmpty = false := by
    cases polys with
    | nil => rw [sort_by_area_desc] at hs; cases hs
    | cons a l => rfl
  have houters : outer_profiles RectOps polys = [r1] := by
    rw [outer_profiles, hs]
    simp [select_outers, c12, c13]
  have hbuckets : hole_buckets RectOps polys = [[r2, r3]] := by
    rw [hole_buckets, houters, hs]
    simp only [List.length_cons, List.length_nil, List.replicate]
    simp [assign_holes, rect_equals_self, e21, e31, assign_hole, containing_aux,
      c12, c13, List.insertionSort, List.orderedInsert, update_bucket]
  rw [assign_outers_and_holes, if_neg (by rw [hne]; exact Bool.false_ne_true),
    houters, hbuckets]
  rfl

/-- Claim C1 counterexample: for three nested rectangles the classifier
does not make the middle rectangle an outer with the innermost as its
hole; instead the only group is the outermost rectangle with BOTH inner
rectangles as its holes — the innermost rectangle is a second hole of the
outermost, which the claim says never happens. -/
theorem claim_c1_counterexample :
    assign_outers_and_holes RectOps [⟨0, 0, 10, 10⟩, ⟨1, 1, 9, 9⟩, ⟨2, 2, 8, 8⟩]
      = [(⟨0, 0, 10, 10⟩, [⟨1, 1, 9, 9⟩, ⟨2, 2, 8, 8⟩])] := by
  norm_num [assign_outers_and_holes, outer_profiles, hole_buckets,
    sort_by_area_desc, List.insertionSort, List.orderedInsert, select_outers,
    containing_aux, assign_hole, update_bucket, assign_holes, RectOps]

/-- Claim C1 witness: the amended statement applied to a scrambled input of
three nested rectangles. -/
theorem claim_c1_witness :
    assign_outers_and_holes RectOps
        [⟨4, 4, 26, 26⟩, ⟨10, 10, 20, 20⟩, ⟨0, 0, 30, 30⟩]
      = [(⟨0, 0, 30, 30⟩, [⟨4, 4, 26, 26⟩, ⟨10, 10, 20, 20⟩])] :=
  claim_c1_amended ⟨0, 0, 30, 30⟩ ⟨4, 4, 26, 26⟩ ⟨10, 10, 20, 20⟩ _
    (by norm_num [Rect.properly_inside]) (by norm_num [Rect.properly_inside])
    (by norm_num [sort_by_area_desc, List.insertionSort, List.orderedInsert,
      RectOps])

/-- Claim C3 counterexample: a caller-supplied explicit empty
ignore-substring list is not used as an empty ignore set: Python `or`
silently replaces it with the default annotation-layer set, so an entity
on an "ETCH" layer is skipped by its layer name even though the caller
asked for no layer filtering (the same entity survives under a genuinely
empty ignore set). -/
theorem claim_c3_counterexample :
    resolve_ignore (some []) = DEFAULT_IGNORE_LAYER_SUBSTRINGS
    ∧ collect_closed_polygons
        [⟨"LWPOLYLINE", "ETCH", fun _ => some (⟨0, 0, 1, 1⟩ : Rect)⟩]
        (resolve_ignore (some [])) (1 / 100) = []
    ∧ collect_closed_polygons
        [⟨"LWPOLYLINE", "ETCH", fun _ => some (⟨0, 0, 1, 1⟩ : Rect)⟩]
        ([] : List String) (1 / 100) = [⟨0, 0, 1, 1⟩] :=
  ⟨rfl, by decide, by decide⟩

/-- Claim C3 (amended): parsing uses the caller-supplied ignore list
exactly when it is non-empty; both an omitted list and a caller-supplied
EMPTY list are replaced by the default annotation-layer set (Python `or`
treats the empty list as unspecified). -/
theorem claim_c3_amended :
    resolve_ignore none = DEFAULT_IGNORE_LAYER_SUBSTRINGS
    ∧ resolve_ignore (some []) = DEFAULT_IGNORE_LAYER_SUBSTRINGS
    ∧ ∀ l, l ≠ [] → resolve_ignore (some l) = l := by
  refine ⟨rfl, rfl, ?_⟩
  intro l hl
  cases l with
  | nil => exact absurd rfl hl
  | cons s rest => rfl

/-- Claim C3 witness: a non-empty caller-supplied ignore list is used
verbatim. -/
theorem claim_c3_witness : resolve_ignore (some ["KEEP"]) = ["KEEP"] :=
  claim_c3_amended.2.2 ["KEEP"] (by simp)

/-- Claim C6: a parse call fails, with the reader's `MalformedDocument`
error and no partial results, exactly when the document reader rejects the
input bytes; a readable document whose entities yield no eligible closed
polygons parses to the empty part list as a success — malformed bytes
never produce a silent empty success. -/
theorem claim_c6_malformed_or_empty (G : GeomOps α)
    (read_doc : List ℕ → Except MalformedDocument (List (Entity α)))
    (file_bytes : List ℕ) (filename units : String)
    (ign : Option (List String)) (flatten_tol : ℚ) :
    (∀ e, read_doc file_bytes = Except.error e →
      parse_dxf_plate_parts G read_doc file_bytes filename units ign flatten_tol
        = Except.error e)
    ∧ (∀ e, parse_dxf_plate_parts G read_doc file_bytes filename units ign
          flatten_tol = Except.error e →
        read_doc file_bytes = Except.error e)
    ∧ (∀ ents, read_doc file_bytes = Except.ok ents →
        collect_closed_polygons ents (resolve_ignore ign) flatten_tol = [] →
        parse_dxf_plate_parts G read_doc file_bytes filename units ign
          flatten_tol = Except.ok []) := by
  refine ⟨?_, ?_, ?_⟩
  · intro e he
    simp only [parse_dxf_plate_parts, he]
  · intro e he
    cases hr : read_doc file_bytes with
    | error e2 =>
      simp only [parse_dxf_plate_parts, hr, Except.error.injEq] at he
      rw [he]
    | ok ents =>
      simp only [parse_dxf_plate_parts, hr] at he
      cases he
  · intro ents hr hc
    simp only [parse_dxf_plate_parts, hr, hc, Except.ok.injEq]
    simp [assign_outers_and_holes, assemble_parts]

/-- Claim C6 witness: a reader failure propagates unchanged. -/
theorem claim_c6_witness :
    parse_dxf_plate_parts RectOps (fun _ => Except.error ⟨"truncated"⟩) [0]
      "part.dxf" "in" none (1 / 100) = Except.error ⟨"truncated"⟩ :=
  (claim_c6_malformed_or_empty RectOps (fun _ => Except.error ⟨"truncated"⟩) [0]
    "part.dxf" "in" none (1 / 100)).1 ⟨"truncated"⟩ rfl

/-- Claim C7: the output bounding box of a part is computed from the
(scaled) outer ring's bounds only and is unchanged by the hole list; the
cut perimeter is the rounded sum of the outer boundary length and all hole
boundary lengths; the hole circumference is the rounded sum of the hole
boundary lengths; each rounded value is an integer number of thousandths
(3 decimal places); and `parts_to_rows` copies every field verbatim,
applying no further rounding. -/
theorem claim_c7_metrics (G : GeomOps α) (base : String) (n idx : ℕ)
    (outer : α) (holes : List α) (sf : ℚ) :
    ((mk_detected_part G base n idx outer holes sf).bbox_w_in
        = round3 ((G.bounds (if sf ≠ 1 then G.scale sf outer else outer)).2.2.1
            - (G.bounds (if sf ≠ 1 then G.scale sf outer else outer)).1)
      ∧ (mk_detected_part G base n idx outer holes sf).bbox_l_in
        = round3 ((G.bounds (if sf ≠ 1 then G.scale sf outer else outer)).2.2.2
            - (G.bounds (if sf ≠ 1 then G.scale sf outer else outer)).2.1))
    ∧ (∀ holes2, (mk_detected_part G base n idx outer holes2 sf).bbox_w_in
          = (mk_detected_part G base n idx outer holes sf).bbox_w_in
        ∧ (mk_detected_part G base n idx outer holes2 sf).bbox_l_in
          = (mk_detected_part G base n idx outer holes sf).bbox_l_in)
    ∧ (mk_detected_part G base n idx outer holes sf).cut_perimeter_in
      = round3 (G.exterior_length (if sf ≠ 1 then G.scale sf outer else outer)
          + ((if sf ≠ 1 then holes.map (G.scale sf) else holes).map
              G.exterior_length).sum)
    ∧ (mk_detected_part G base n idx outer holes sf).hole_circumference_in
      = round3 (((if sf ≠ 1 then holes.map (G.scale sf) else holes).map
          G.exterior_length).sum)
    ∧ (∃ z : ℤ,
        (mk_detected_part G base n idx outer holes sf).bbox_w_in = z / 1000)
    ∧ (∃ z : ℤ,
        (mk_detected_part G base n idx outer holes sf).bbox_l_in = z / 1000)
    ∧ (∃ z : ℤ,
        (mk_detected_part G base n idx outer holes sf).cut_perimeter_in
          = z / 1000)
    ∧ (∃ z : ℤ,
        (mk_detected_part G base n idx outer holes sf).hole_circumference_in
          = z / 1000)
    ∧ (∀ parts, parts_to_rows parts = parts.map fun dp =>
        { name_cell := dp.part_name, width_in := dp.bbox_w_in,
          length_in := dp.bbox_l_in, cut_perimeter_in := dp.cut_perimeter_in,
          hole_count := dp.hole_count,
          hole_circumference_in := dp.hole_circumference_in }) :=
  ⟨⟨rfl, rfl⟩, fun _ => ⟨rfl, rfl⟩, rfl, rfl, ⟨_, rfl⟩, ⟨_, rfl⟩, ⟨_, rfl⟩,
    ⟨_, rfl⟩, fun _ => rfl⟩

/-- Claim C7 witness: the perimeter equation of the claim at a concrete
square with one hole. -/
theorem claim_c7_witness :
    (mk_detected_part RectOps "p" 1 1 (⟨0, 0, 4, 4⟩ : Rect) [⟨1, 1, 2, 2⟩]
        1).cut_perimeter_in
      = round3 (RectOps.exterior_length
          (if (1 : ℚ) ≠ 1 then RectOps.scale 1 ⟨0, 0, 4, 4⟩ else ⟨0, 0, 4, 4⟩)
          + ((if (1 : ℚ) ≠ 1 then [(⟨1, 1, 2, 2⟩ : Rect)].map (RectOps.scale 1)
              else [⟨1, 1, 2, 2⟩]).map RectOps.exterior_length).sum) :=
  (claim_c7_metrics RectOps "p" 1 1 ⟨0, 0, 4, 4⟩ [⟨1, 1, 2, 2⟩] 1).2.2.1

theorem mk_detected_part_scale (G : GeomOps α) (h1 : ∀ p, G.scale 1 p = p)
    (base : String) (n idx : ℕ) (outer : α) (holes : List α) (sf : ℚ) :
    mk_detected_part G base n idx outer holes sf
      = mk_detected_part G base n idx (G.scale sf outer)
          (holes.map (G.scale sf)) 1 := by
  have houter : (if sf ≠ 1 then G.scale sf outer else outer)
      = (if (1 : ℚ) ≠ 1 then G.scale 1 (G.scale sf outer)
          else G.scale sf outer) := by
    by_cases hsf : sf = 1
    · subst hsf; simp [h1]
    · simp [hsf]
  have hholes : (if sf ≠ 1 then holes.map (G.scale sf) else holes)
      = (if (1 : ℚ) ≠ 1 then (holes.map (G.scale sf)).map (G.scale 1)
          else holes.map (G.scale sf)) := by
    by_cases hsf : sf = 1
    · subst hsf
      simp only [ne_eq, not_true_eq_false, if_false]
      have hm : holes.map (G.scale 1) = holes.map id :=
        List.map_congr_left fun a _ => h1 a
      rw [hm, List.map_id]
    · simp [hsf]
  simp only [mk_detected_part]
  rw [houter, hholes]

/-- Claim C8: the unit scale factor is 1 for inches, 1/25.4 for the
millimeter spellings, and 1 for any unit string not recognized as
millimeters after strip/lowercase normalization; the one factor derived
from the declared unit is applied uniformly to the outer ring and all hole
rings of a group (the source's conditional scaling agrees with pre-scaling
every ring by the factor and then applying factor 1). -/
theorem claim_c8_unit_scaling (G : GeomOps α) (h1 : ∀ p, G.scale 1 p = p)
    (base : String) (n idx : ℕ) (outer : α) (holes : List α) (units : String) :
    scale_factor "in" = 1
    ∧ scale_factor "mm" = 1 / (25.4 : ℚ)
    ∧ scale_factor "millimeter" = 1 / (25.4 : ℚ)
    ∧ scale_factor "millimeters" = 1 / (25.4 : ℚ)
    ∧ (∀ u, ¬(py_lower (py_strip (if u = "" then "in" else u)) = "mm"
          ∨ py_lower (py_strip (if u = "" then "in" else u)) = "millimeter"
          ∨ py_lower (py_strip (if u = "" then "in" else u)) = "millimeters") →
        scale_factor u = 1)
    ∧ mk_detected_part G base n idx outer holes (scale_factor units)
      = mk_detected_part G base n idx (G.scale (scale_factor units) outer)
          (holes.map (G.scale (scale_factor units))) 1 := by
  refine ⟨?_, ?_, ?_, ?_, ?_,
    mk_detected_part_scale G h1 base n idx outer holes _⟩
  · simp +decide [scale_factor]
  · simp +decide [scale_factor]
  · simp +decide [scale_factor]
  · simp +decide [scale_factor]
  · intro u hu
    simp only [scale_factor]
    rw [if_neg hu]

/-- Claim C8 witness: scaling a one-inch square from millimeters. -/
theorem claim_c8_witness :
    mk_detected_part RectOps "p" 2 1 (⟨0, 0, 1, 1⟩ : Rect) []
        (scale_factor "mm")
      = mk_detected_part RectOps "p" 2 1
          (RectOps.scale (scale_factor "mm") ⟨0, 0, 1, 1⟩) [] 1 :=
  (claim_c8_unit_scaling RectOps
    (fun p => by cases p; simp [RectOps]) "p" 2 1 ⟨0, 0, 1, 1⟩ [] "mm").2.2.2.2.2

theorem mk_detected_part_name (G : GeomOps α) (base : String) (n idx : ℕ)
    (outer : α) (holes : List α) (sf : ℚ) :
    (mk_detected_part G base n idx outer holes sf).part_name
      = if n > 1 then base ++ " - Part " ++ toString idx else base := rfl

theorem assemble_parts_names (G : GeomOps α) (sf : ℚ) (base : String) (n : ℕ) :
    ∀ (groups : List (α × List α)) (k i : ℕ), i < groups.length →
      ((assemble_parts G sf base n k groups).map
          DetectedPart.part_name).getD i ""
        = if n > 1 then base ++ " - Part " ++ toString (k + i) else base := by
  intro groups
  induction groups with
  | nil => intro k i hi; exact absurd hi (Nat.not_lt_zero i)
  | cons g rest ih =>
    intro k i hi
    cases i with
    | zero =>
      cases g with
      | mk outer holes =>
        simp only [assemble_parts, List.map_cons, List.getD_cons_zero,
          mk_detected_part_name, Nat.add_zero]
    | succ i =>
      cases g with
      | mk outer holes =>
        simp only [assemble_parts, List.map_cons, List.getD_cons_succ]
        rw [ih (k + 1) i (by simpa using hi)]
        have harg : k + 1 + i = k + (i + 1) := by omega
        rw [harg]

/-- Claim C9: when exactly one group is detected, its part name is the
filename's base name (extension stripped by the last-dot rule); when two
or more groups are detected, the n-th part (1-based, in classification
order) is named "base - Part n". -/
theorem claim_c9_part_names (G : GeomOps α) (sf : ℚ) (filename : String)
    (groups : List (α × List α)) :
    (groups.length = 1 →
      (assemble_parts G sf (rsplit_base filename) groups.length 1 groups).map
        DetectedPart.part_name = [rsplit_base filename])
    ∧ (2 ≤ groups.length →
        ∀ i, i < groups.length →
          ((assemble_parts G sf (rsplit_base filename) groups.length 1
              groups).map DetectedPart.part_name).getD i ""
            = rsplit_base filename ++ " - Part " ++ toString (i + 1)) := by
  constructor
  · intro h1
    obtain ⟨g, hg⟩ := List.length_eq_one.mp h1
    subst hg
    cases g with
    | mk outer holes => simp [assemble_parts, mk_detected_part_name]
  · intro h2 i hi
    rw [assemble_parts_names G sf (rsplit_base filename) _ groups 1 i hi,
      if_pos (by omega : _ > 1)]
    have harg : 1 + i = i + 1 := by omega
    rw [harg]

/-- Claim C9 witness: the second of two detected parts of "part.dxf" is
named "part - Part 2". -/
theorem claim_c9_witness :
    ((assemble_parts RectOps 1 (rsplit_base "part.dxf")
        ([((⟨0, 0, 1, 1⟩ : Rect), ([] : List Rect)), (⟨2, 2, 3, 3⟩, [])]).length
        1 [((⟨0, 0, 1, 1⟩ : Rect), ([] : List Rect)), (⟨2, 2, 3, 3⟩, [])]).map
      DetectedPart.part_name).getD 1 ""
      = rsplit_base "part.dxf" ++ " - Part " ++ toString (1 + 1) :=
  (claim_c9_part_names RectOps 1 "part.dxf"
    [((⟨0, 0, 1, 1⟩ : Rect), ([] : List Rect)), (⟨2, 2, 3, 3⟩, [])]).2
    (by simp) 1 (by simp)

end DxfPlate
